import Mathlib

/-!
Verification of the incremental Structure-from-Motion pipeline (`SFM.py`).

The development shallowly embeds the pipeline's own computations.  External
OpenCV / SciPy capabilities (SIFT detection, `knnMatch`, `triangulatePoints`,
`solvePnPRansac`, `Rodrigues`, `projectPoints`, `least_squares`) are treated
as external collaborators: their outputs appear as parameters of the embedded
functions, and everything the repository itself computes from those outputs is
translated faithfully.  Pixel coordinates and descriptor distances are modelled
over `ℚ` where only exact comparisons matter, and over `ℝ` where the code takes
square roots.
-/

namespace SFM

/-! ### Correspondence Finder (`feature_matching`, lines 120-126)

`cv2.BFMatcher.knnMatch(..., k=2)` is external; its output is the list of
`(m.distance, n.distance)` pairs, nearest first.  The repository keeps a match
exactly when `m.distance < 0.70 * n.distance`. -/

def feature_matching (knn_matches : List (ℚ × ℚ)) : List (ℚ × ℚ) :=
  knn_matches.filter (fun m => decide (m.1 < 7/10 * m.2))

/-! ### Triangulation (`triangulation`, lines 148-150)

`cv2.triangulatePoints` is external; its raw output is a list of homogeneous
4-vectors (the columns of the returned `4×N` array).  The repository divides
the whole array by its fourth row: `point_cloud / point_cloud[3]`. -/

structure HomPoint where
  x : ℚ
  y : ℚ
  z : ℚ
  w : ℚ
  deriving DecidableEq, Repr

def triangulation_points (point_cloud : List HomPoint) : List HomPoint :=
  point_cloud.map (fun p => ⟨p.x / p.w, p.y / p.w, p.z / p.w, p.w / p.w⟩)

/-! ### Pose Estimator (`solve_PnP`, lines 182-189)

`cv2.solvePnPRansac` and `cv2.Rodrigues` are external; their outputs (rotation
matrix, translation vector, and the optional inlier index column `inlier[:,0]`)
are parameters.  The repository prunes the three parallel arrays by the same
fancy-indexing `arr[inlier[:,0]]`, modelled by `selectRows`. -/

def selectRows {α : Type*} (l : List α) (idxs : List ℕ) : List α :=
  idxs.filterMap (fun i => l[i]?)

def solve_PnP {γ β δ R T : Type*} (obj_point : List γ) (image_point : List β)
    (rot_vector : List δ) (rot_matrix : R) (tran_vector : T)
    (inlier : Option (List ℕ)) : R × T × List β × List γ × List δ :=
  match inlier with
  | none => (rot_matrix, tran_vector, image_point, obj_point, rot_vector)
  | some idxs =>
      (rot_matrix, tran_vector, selectRows image_point idxs,
        selectRows obj_point idxs, selectRows rot_vector idxs)

lemma selectRows_length {α : Type*} (l : List α) (idxs : List ℕ)
    (h : ∀ i ∈ idxs, i < l.length) : (selectRows l idxs).length = idxs.length := by
  induction idxs with
  | nil => rfl
  | cons a as ih =>
      have ha : a < l.length := h a (List.mem_cons_self a as)
      have : l[a]? = some (l.get ⟨a, ha⟩) := List.getElem?_eq_getElem ha
      simp only [selectRows, List.filterMap_cons, this]
      simp only [List.length_cons]
      exact congrArg (· + 1) (ih (fun i hi => h i (List.mem_cons_of_mem a hi)))

lemma selectRows_getElem? {α : Type*} (l : List α) (idxs : List ℕ)
    (h : ∀ i ∈ idxs, i < l.length) (k i : ℕ) (hk : idxs[k]? = some i) :
    (selectRows l idxs)[k]? = l[i]? := by
  induction idxs generalizing k with
  | nil => simp at hk
  | cons a as ih =>
      have ha : a < l.length := h a (List.mem_cons_self a as)
      have hsome : l[a]? = some (l.get ⟨a, ha⟩) := List.getElem?_eq_getElem ha
      cases k with
      | zero =>
          simp only [List.getElem?_cons_zero, Option.some.injEq] at hk
          subst hk
          simp [selectRows, List.filterMap_cons, hsome]
      | succ k' =>
          simp only [List.getElem?_cons_succ] at hk
          simp only [selectRows, List.filterMap_cons, hsome]
          simpa [selectRows] using
            ih (fun j hj => h j (List.mem_cons_of_mem a hj)) k' hk

/-! ### Track Linker (`find_common_points`, lines 209-229)

`np.where(image_points_2 == image_points_1[i, :])` broadcasts the comparison:
element `(j, k)` of the boolean array is true when coordinate `k` of row `j` of
`image_points_2` equals coordinate `k` of the probe row.  `a[0]` therefore
lists, in row-major order, every row with at least one coordinate agreeing
positionally, and `a[0][0]` is the first such row (`firstMatchIdx`).  The
masked arrays remove the rows of `image_points_2` / `image_points_3` whose
index appears in `cm_points_2` and compress the rest in order
(`maskCompress`). -/

def matchRow (p q : ℚ × ℚ) : Bool := decide (q.1 = p.1) || decide (q.2 = p.2)

def firstMatchIdx {α : Type*} (p : α → Bool) : List α → Option ℕ
  | [] => none
  | a :: as => if p a then some 0 else (firstMatchIdx p as).map (· + 1)

def cm_pairs (image_points_1 image_points_2 : List (ℚ × ℚ)) : List (ℕ × ℕ) :=
  (List.range image_points_1.length).filterMap (fun i =>
    (image_points_1[i]?).bind (fun p =>
      (firstMatchIdx (matchRow p) image_points_2).map (fun j => (i, j))))

def maskCompress (arr : List (ℚ × ℚ)) (cm : List ℕ) : List (ℚ × ℚ) :=
  (List.range arr.length).filterMap (fun j => if j ∈ cm then none else arr[j]?)

def find_common_points (image_points_1 image_points_2 image_points_3 : List (ℚ × ℚ)) :
    List ℕ × List ℕ × List (ℚ × ℚ) × List (ℚ × ℚ) :=
  let pairs := cm_pairs image_points_1 image_points_2
  (pairs.map Prod.fst, pairs.map Prod.snd,
    maskCompress image_points_2 (pairs.map Prod.snd),
    maskCompress image_points_3 (pairs.map Prod.snd))

lemma firstMatchIdx_lt {α : Type*} (p : α → Bool) (l : List α) (j : ℕ)
    (h : firstMatchIdx p l = some j) : j < l.length := by
  induction l generalizing j with
  | nil => simp [firstMatchIdx] at h
  | cons a as ih =>
      by_cases hpa : p a
      · simp [firstMatchIdx, hpa] at h
        simp only [List.length_cons]
        omega
      · simp only [firstMatchIdx, hpa, if_neg, Bool.false_eq_true, ite_false,
          Option.map_eq_some'] at h
        obtain ⟨j', hj', rfl⟩ := h
        have := ih j' hj'
        simp only [List.length_cons]
        omega

lemma firstMatchIdx_eq_some_iff {α : Type*} (p : α → Bool) (l : List α) (j : ℕ) :
    firstMatchIdx p l = some j ↔
      (∃ a, l[j]? = some a ∧ p a = true) ∧
        ∀ (k : ℕ), k < j → ∀ b, l[k]? = some b → p b = false := by
  induction l generalizing j with
  | nil => simp [firstMatchIdx]
  | cons a as ih =>
      by_cases hpa : p a
      · simp only [firstMatchIdx, hpa, ite_true]
        cases j with
        | zero =>
            simp only [List.getElem?_cons_zero, Option.some.injEq]
            constructor
            · intro _
              exact ⟨⟨a, rfl, hpa⟩, by omega⟩
            · intro _; trivial
        | succ m =>
            simp only [Option.some.injEq]
            constructor
            · omega
            · rintro ⟨-, hmin⟩
              have := hmin 0 (Nat.succ_pos m) a (by simp)
              rw [hpa] at this
              exact absurd this (by simp)
      · simp only [firstMatchIdx, hpa, Bool.false_eq_true, ite_false]
        cases j with
        | zero =>
            simp only [Option.map_eq_some']
            constructor
            · rintro ⟨j', -, hj'⟩; omega
            · rintro ⟨⟨b, hb, hpb⟩, -⟩
              simp only [List.getElem?_cons_zero, Option.some.injEq] at hb
              subst hb
              rw [hpb] at hpa
              exact absurd rfl hpa
        | succ m =>
            simp only [Option.map_eq_some']
            constructor
            · rintro ⟨j', hj', hise⟩
              have hm : j' = m := by omega
              subst hm
              rw [ih] at hj'
              obtain ⟨⟨b, hb, hpb⟩, hmin⟩ := hj'
              refine ⟨⟨b, by simpa using hb, hpb⟩, ?_⟩
              intro k hk c hc
              cases k with
              | zero =>
                  simp only [List.getElem?_cons_zero, Option.some.injEq] at hc
                  subst hc
                  exact Bool.eq_false_iff.mpr hpa
              | succ k' =>
                  simp only [List.getElem?_cons_succ] at hc
                  exact hmin k' (by omega) c hc
            · rintro ⟨⟨b, hb, hpb⟩, hmin⟩
              refine ⟨m, ?_, rfl⟩
              rw [ih]
              refine ⟨⟨b, by simpa using hb, hpb⟩, ?_⟩
              intro k hk c hc
              exact hmin (k + 1) (by omega) c (by simpa using hc)

lemma mem_cm_pairs (pts1 pts2 : List (ℚ × ℚ)) (i j : ℕ) :
    (i, j) ∈ cm_pairs pts1 pts2 ↔
      ∃ p, pts1[i]? = some p ∧ firstMatchIdx (matchRow p) pts2 = some j := by
  simp only [cm_pairs, List.mem_filterMap, List.mem_range, Option.bind_eq_some,
    Option.map_eq_some', Prod.mk.injEq]
  constructor
  · rintro ⟨i', hi', p, hp, j', hj', hij, rfl⟩
    subst hij
    exact ⟨p, hp, hj'⟩
  · rintro ⟨p, hp, hj⟩
    have hi : i < pts1.length := by
      by_contra hge
      rw [List.getElem?_eq_none (by omega)] at hp
      exact Option.noConfusion hp
    exact ⟨i, hi, p, hp, j, hj, rfl, rfl⟩

lemma cm2_lt (pts1 pts2 : List (ℚ × ℚ)) (j : ℕ)
    (h : j ∈ (cm_pairs pts1 pts2).map Prod.snd) : j < pts2.length := by
  simp only [List.mem_map] at h
  obtain ⟨⟨i, j'⟩, hmem, rfl⟩ := h
  rw [mem_cm_pairs] at hmem
  obtain ⟨p, -, hj⟩ := hmem
  exact firstMatchIdx_lt _ _ _ hj

lemma maskCompress_eq_filter (arr : List (ℚ × ℚ)) (cm : List ℕ) :
    maskCompress arr cm =
      ((List.range arr.length).filter (fun j => decide (j ∉ cm))).filterMap
        (fun j => arr[j]?) := by
  unfold maskCompress
  generalize List.range arr.length = l
  induction l with
  | nil => rfl
  | cons a as ih =>
      by_cases ha : a ∈ cm
      · simp [List.filterMap_cons, List.filter_cons, ha, ih]
      · simp [List.filterMap_cons, List.filter_cons, ha, ih]

/-! ### Two-View Initializer pose composition (driver lines 410-411) and
intrinsics handling (`downscale_instrinsics`, lines 66-73; bundle-adjustment
driver step, lines 321-324 and 450-452)

`composeSecondPose` is the update `transform_matrix_1[:3,:3] = rot_matrix @
transform_matrix_0[:3,:3]`, `transform_matrix_1[:3,3] = transform_matrix_0[:3,3]
+ transform_matrix_0[:3,:3] @ tran_matrix.ravel()`.

`downscale_instrinsics` divides exactly `K[0,0]`, `K[1,1]`, `K[0,2]`, `K[1,2]`
by the downscale factor.  `compute_bundle_adjustment` unpacks the corrected
vector returned by the external least-squares solver: the refined intrinsics
slice `values_corrected[12:21]` is bound to a local variable and never
returned, so the driver (`applyBundleAdjustment`, lines 450-452) keeps its
stored intrinsics unchanged.  `rest = int(len(vc[21:]) * 0.4)` is modelled with
exact arithmetic as `2 * (len - 21) / 5`. -/

def composeSecondPose (rot_matrix : Matrix (Fin 3) (Fin 3) ℝ) (tran_matrix : Fin 3 → ℝ)
    (transform_matrix_0_rot : Matrix (Fin 3) (Fin 3) ℝ) (transform_matrix_0_tran : Fin 3 → ℝ) :
    Matrix (Fin 3) (Fin 3) ℝ × (Fin 3 → ℝ) :=
  (rot_matrix * transform_matrix_0_rot,
    transform_matrix_0_tran + transform_matrix_0_rot.mulVec tran_matrix)

noncomputable def downscale_instrinsics (K : Matrix (Fin 3) (Fin 3) ℝ) (factor : ℝ) :
    Matrix (Fin 3) (Fin 3) ℝ :=
  Matrix.of fun i j =>
    if (i = 0 ∧ j = 0) ∨ (i = 1 ∧ j = 1) ∨ (i = 0 ∧ j = 2) ∨ (i = 1 ∧ j = 2) then
      K i j / factor
    else K i j

def compute_bundle_adjustment (values_corrected : List ℝ) : List ℝ × List ℝ × List ℝ :=
  let rest := 2 * (values_corrected.length - 21) / 5
  (values_corrected.drop (21 + rest),
    (values_corrected.drop 21).take rest,
    values_corrected.take 12)

structure IterationState where
  K : Matrix (Fin 3) (Fin 3) ℝ
  points_3d : List ℝ
  cm_mask_1 : List ℝ
  transform_matrix_1 : List ℝ

def applyBundleAdjustment (s : IterationState) (values_corrected : List ℝ) :
    IterationState :=
  let r := compute_bundle_adjustment values_corrected
  { s with points_3d := r.1, cm_mask_1 := r.2.1, transform_matrix_1 := r.2.2 }

/-! ### Point Cloud Accumulator/Exporter (`save_to_ply`, lines 350-359) and
Reprojection Evaluator (`reproj_error`, lines 253-264)

`save_to_ply_points` is the coordinate pipeline of `save_to_ply`:
`out_points = point_cloud.reshape(-1,3) * 200`, then `mean = np.mean(verts[:,:3])`,
`dist = np.sqrt(x^2+y^2+z^2)` of the centered points, and selection of the rows
with `dist < np.mean(dist) + 300` (`filterOutliers` is that selection step by
itself; `filterWithSlack` generalizes its additive threshold).
`spec_filter_then_scale` is the specification claim's order of operations
(filter the unscaled cloud, then scale), written for comparison.

`cv_norm_L2` is `cv2.norm(a, b, cv2.NORM_L2)`: the square root of the sum of
squared differences over all coordinates of all points.  `reproj_error` divides
it by the number of projected points (`len(image_points_calc)`).
`mean_euclidean_error` is the specification claim's mean per-point Euclidean
distance, written for comparison.  The projection itself (`cv2.projectPoints`)
is external; the embedded functions take the projected and observed 2D points. -/

abbrev P3 := ℝ × ℝ × ℝ

def scalePoint (k : ℝ) (p : P3) : P3 := (p.1 * k, p.2.1 * k, p.2.2 * k)

def sum3 (pts : List P3) : P3 :=
  pts.foldr (fun p q => (p.1 + q.1, p.2.1 + q.2.1, p.2.2 + q.2.2)) (0, 0, 0)

noncomputable def centroid (pts : List P3) : P3 :=
  ((sum3 pts).1 / pts.length, (sum3 pts).2.1 / pts.length, (sum3 pts).2.2 / pts.length)

noncomputable def distTo (c p : P3) : ℝ :=
  Real.sqrt ((p.1 - c.1) ^ 2 + (p.2.1 - c.2.1) ^ 2 + (p.2.2 - c.2.2) ^ 2)

noncomputable def distList (pts : List P3) : List ℝ :=
  pts.map (distTo (centroid pts))

noncomputable def meanDist (pts : List P3) : ℝ :=
  (distList pts).sum / pts.length

open Classical in
noncomputable def filterWithSlack (slack : ℝ) (verts : List P3) : List P3 :=
  verts.filter (fun p => decide (distTo (centroid verts) p < meanDist verts + slack))

open Classical in
noncomputable def filterOutliers (verts : List P3) : List P3 :=
  verts.filter (fun p => decide (distTo (centroid verts) p < meanDist verts + 300))

open Classical in
noncomputable def save_to_ply_points (point_cloud : List P3) : List P3 :=
  let out_points := point_cloud.map (scalePoint 200)
  out_points.filter
    (fun p => decide (distTo (centroid out_points) p < meanDist out_points + 300))

noncomputable def spec_filter_then_scale (point_cloud : List P3) : List P3 :=
  (filterOutliers point_cloud).map (scalePoint 200)

lemma sum3_nil : sum3 [] = (0, 0, 0) := rfl

lemma sum3_cons (p : P3) (ps : List P3) :
    sum3 (p :: ps) =
      (p.1 + (sum3 ps).1, p.2.1 + (sum3 ps).2.1, p.2.2 + (sum3 ps).2.2) := rfl

lemma sum3_map_scale (k : ℝ) (pts : List P3) :
    sum3 (pts.map (scalePoint k)) = scalePoint k (sum3 pts) := by
  induction pts with
  | nil => simp [sum3_nil, scalePoint]
  | cons p ps ih =>
      simp only [List.map_cons, sum3_cons, ih, scalePoint, Prod.mk.injEq]
      refine ⟨by ring, by ring, by ring⟩

lemma centroid_map_scale (k : ℝ) (pts : List P3) :
    centroid (pts.map (scalePoint k)) = scalePoint k (centroid pts) := by
  unfold centroid
  rw [sum3_map_scale, List.length_map]
  simp only [scalePoint, Prod.mk.injEq]
  refine ⟨by ring, by ring, by ring⟩

lemma distTo_scale (k : ℝ) (hk : 0 ≤ k) (c p : P3) :
    distTo (scalePoint k c) (scalePoint k p) = k * distTo c p := by
  unfold distTo scalePoint
  have h : (p.1 * k - c.1 * k) ^ 2 + (p.2.1 * k - c.2.1 * k) ^ 2 +
      (p.2.2 * k - c.2.2 * k) ^ 2 =
      k ^ 2 * ((p.1 - c.1) ^ 2 + (p.2.1 - c.2.1) ^ 2 + (p.2.2 - c.2.2) ^ 2) := by
    ring
  rw [h, Real.sqrt_mul (sq_nonneg k), Real.sqrt_sq hk]

lemma distList_map_scale (k : ℝ) (hk : 0 ≤ k) (pts : List P3) :
    distList (pts.map (scalePoint k)) = (distList pts).map (fun d => k * d) := by
  unfold distList
  rw [centroid_map_scale, List.map_map, List.map_map]
  apply List.map_congr_left
  intro p _
  exact distTo_scale k hk _ p

lemma meanDist_map_scale (k : ℝ) (hk : 0 ≤ k) (pts : List P3) :
    meanDist (pts.map (scalePoint k)) = k * meanDist pts := by
  unfold meanDist
  rw [distList_map_scale k hk, List.length_map]
  have hsum : ((distList pts).map (fun d => k * d)).sum = k * (distList pts).sum := by
    induction distList pts with
    | nil => simp
    | cons d ds ih => simp [ih]; ring
  rw [hsum, mul_div_assoc]

noncomputable def cv_norm_L2 (a b : List (ℝ × ℝ)) : ℝ :=
  Real.sqrt (((a.zip b).map
    (fun q => (q.1.1 - q.2.1) ^ 2 + (q.1.2 - q.2.2) ^ 2)).sum)

noncomputable def reproj_error (image_points_calc image_points : List (ℝ × ℝ)) : ℝ :=
  cv_norm_L2 image_points_calc image_points / image_points_calc.length

noncomputable def mean_euclidean_error (a b : List (ℝ × ℝ)) : ℝ :=
  ((a.zip b).map
    (fun q => Real.sqrt ((q.1.1 - q.2.1) ^ 2 + (q.1.2 - q.2.2) ^ 2))).sum / a.length

end SFM

namespace SFM

/-- C9: every match returned by the Correspondence Finder satisfies the ratio
test: its nearest-neighbor distance is strictly less than `0.70` times its
second-nearest-neighbor distance; no returned match violates this. -/
theorem feature_matching_ratio_test (knn_matches : List (ℚ × ℚ))
    (m : ℚ × ℚ) (hm : m ∈ feature_matching knn_matches) :
    m.1 < 7/10 * m.2 := by
  have := List.of_mem_filter hm
  simpa using this

/-- Witness for C9: the pair `(1, 2)` passes the ratio test and is kept. -/
theorem feature_matching_ratio_test_witness :
    ((1, 2) ∈ feature_matching [((1 : ℚ), 2)]) ∧ (1 : ℚ) < 7/10 * 2 :=
  ⟨by norm_num [feature_matching], feature_matching_ratio_test [((1 : ℚ), 2)] (1, 2)
    (by norm_num [feature_matching])⟩

/-- C10: the triangulation step divides the raw homogeneous output
componentwise by its fourth coordinate, so whenever every raw point has a
nonzero fourth homogeneous coordinate, every returned point has fourth
coordinate exactly `1` (and the division is only well-defined under that
precondition — over `ℚ`, a zero fourth coordinate would yield `0`, not `1`). -/
theorem triangulation_normalizes_w (point_cloud : List HomPoint)
    (h : ∀ p ∈ point_cloud, p.w ≠ 0) :
    (triangulation_points point_cloud).length = point_cloud.length ∧
      ∀ q ∈ triangulation_points point_cloud, q.w = 1 := by
  constructor
  · simp [triangulation_points]
  · intro q hq
    simp only [triangulation_points, List.mem_map] at hq
    obtain ⟨p, hp, rfl⟩ := hq
    exact div_self (h p hp)

/-- Witness for C10: a concrete homogeneous cloud with nonzero fourth
coordinates is normalized to fourth coordinate `1`. -/
theorem triangulation_normalizes_w_witness :
    (∀ p ∈ [(⟨2, 4, 6, 2⟩ : HomPoint), ⟨1, 1, 1, -3⟩], p.w ≠ 0) ∧
      ((triangulation_points [(⟨2, 4, 6, 2⟩ : HomPoint), ⟨1, 1, 1, -3⟩]).length = 2 ∧
        ∀ q ∈ triangulation_points [(⟨2, 4, 6, 2⟩ : HomPoint), ⟨1, 1, 1, -3⟩], q.w = 1) :=
  ⟨by decide, triangulation_normalizes_w _ (by decide)⟩

/-- C5: when the PnP solve returns an inlier index list (all indices in range,
as `numpy` fancy indexing requires), the three returned parallel arrays are
exactly the inlier-selected subsets of the corresponding inputs: all three have
length equal to the inlier list, and entry `k` of each output is entry
`idxs[k]` of the corresponding input, so the arrays stay index-aligned. -/
theorem solve_PnP_inlier_pruning {γ β δ R T : Type} (obj_point : List γ)
    (image_point : List β) (rot_vector : List δ) (rot_matrix : R) (tran_vector : T)
    (idxs : List ℕ)
    (hobj : ∀ i ∈ idxs, i < obj_point.length)
    (himg : ∀ i ∈ idxs, i < image_point.length)
    (hrot : ∀ i ∈ idxs, i < rot_vector.length) :
    ((solve_PnP obj_point image_point rot_vector rot_matrix tran_vector
        (some idxs)).2.2.1.length = idxs.length ∧
      (solve_PnP obj_point image_point rot_vector rot_matrix tran_vector
        (some idxs)).2.2.2.1.length = idxs.length ∧
      (solve_PnP obj_point image_point rot_vector rot_matrix tran_vector
        (some idxs)).2.2.2.2.length = idxs.length) ∧
    ∀ (k i : ℕ), idxs[k]? = some i →
      (solve_PnP obj_point image_point rot_vector rot_matrix tran_vector
          (some idxs)).2.2.1[k]? = image_point[i]? ∧
        (solve_PnP obj_point image_point rot_vector rot_matrix tran_vector
            (some idxs)).2.2.2.1[k]? = obj_point[i]? ∧
        (solve_PnP obj_point image_point rot_vector rot_matrix tran_vector
            (some idxs)).2.2.2.2[k]? = rot_vector[i]? := by
  refine ⟨⟨?_, ?_, ?_⟩, ?_⟩
  · exact selectRows_length image_point idxs himg
  · exact selectRows_length obj_point idxs hobj
  · exact selectRows_length rot_vector idxs hrot
  · intro k i hk
    exact ⟨selectRows_getElem? image_point idxs himg k i hk,
      selectRows_getElem? obj_point idxs hobj k i hk,
      selectRows_getElem? rot_vector idxs hrot k i hk⟩

/-- Witness for C5: concrete parallel arrays pruned by the inlier list
`[2, 0]` keep equal length and alignment. -/
theorem solve_PnP_inlier_pruning_witness :
    ((∀ i ∈ [2, 0], i < ([10, 20, 30] : List ℕ).length) ∧
      (∀ i ∈ [2, 0], i < ([4, 5, 6] : List ℕ).length) ∧
      (∀ i ∈ [2, 0], i < ([7, 8, 9] : List ℕ).length)) ∧
    (((solve_PnP [10, 20, 30] [4, 5, 6] [7, 8, 9] (0 : ℕ) (0 : ℕ)
        (some [2, 0])).2.2.1.length = ([2, 0] : List ℕ).length ∧
      (solve_PnP [10, 20, 30] [4, 5, 6] [7, 8, 9] (0 : ℕ) (0 : ℕ)
        (some [2, 0])).2.2.2.1.length = ([2, 0] : List ℕ).length ∧
      (solve_PnP [10, 20, 30] [4, 5, 6] [7, 8, 9] (0 : ℕ) (0 : ℕ)
        (some [2, 0])).2.2.2.2.length = ([2, 0] : List ℕ).length) ∧
    ∀ (k i : ℕ), ([2, 0] : List ℕ)[k]? = some i →
      (solve_PnP [10, 20, 30] [4, 5, 6] [7, 8, 9] (0 : ℕ) (0 : ℕ)
          (some [2, 0])).2.2.1[k]? = ([4, 5, 6] : List ℕ)[i]? ∧
        (solve_PnP [10, 20, 30] [4, 5, 6] [7, 8, 9] (0 : ℕ) (0 : ℕ)
            (some [2, 0])).2.2.2.1[k]? = ([10, 20, 30] : List ℕ)[i]? ∧
        (solve_PnP [10, 20, 30] [4, 5, 6] [7, 8, 9] (0 : ℕ) (0 : ℕ)
            (some [2, 0])).2.2.2.2[k]? = ([7, 8, 9] : List ℕ)[i]?) :=
  ⟨⟨by decide, by decide, by decide⟩,
    solve_PnP_inlier_pruning [10, 20, 30] [4, 5, 6] [7, 8, 9] 0 0 [2, 0]
      (by decide) (by decide) (by decide)⟩

/-- C3: the set of matched ("known") indices into the new pair's shared-view
observations and the set of indices of the kept ("novel") complement
observations are disjoint and together cover the full index range of that
array; the returned novel observations are exactly the rows at the
complement indices. -/
theorem find_common_points_partition (pts1 pts2 pts3 : List (ℚ × ℚ)) :
    ((find_common_points pts1 pts2 pts3).2.1.toFinset ∪
        ((List.range pts2.length).filter
          (fun j => decide (j ∉ (find_common_points pts1 pts2 pts3).2.1))).toFinset =
      Finset.range pts2.length) ∧
    Disjoint (find_common_points pts1 pts2 pts3).2.1.toFinset
      ((List.range pts2.length).filter
        (fun j => decide (j ∉ (find_common_points pts1 pts2 pts3).2.1))).toFinset ∧
    (find_common_points pts1 pts2 pts3).2.2.1 =
      ((List.range pts2.length).filter
        (fun j => decide (j ∉ (find_common_points pts1 pts2 pts3).2.1))).filterMap
        (fun j => pts2[j]?) := by
  have hfc : (find_common_points pts1 pts2 pts3).2.1 = (cm_pairs pts1 pts2).map Prod.snd := rfl
  refine ⟨?_, ?_, ?_⟩
  · ext j
    simp only [Finset.mem_union, List.mem_toFinset, List.mem_filter, List.mem_range,
      Finset.mem_range, decide_eq_true_eq, hfc]
    constructor
    · rintro (h | ⟨h, -⟩)
      · exact cm2_lt pts1 pts2 j h
      · exact h
    · intro hj
      by_cases hmem : j ∈ (cm_pairs pts1 pts2).map Prod.snd
      · exact Or.inl hmem
      · exact Or.inr ⟨hj, hmem⟩
  · rw [Finset.disjoint_left]
    intro j hj hj'
    simp only [List.mem_toFinset, List.mem_filter, decide_eq_true_eq, hfc] at hj hj'
    exact hj'.2 hj
  · exact maskCompress_eq_filter pts2 _

/-- Counterexample for C2: observation (1,3) shares only its x coordinate with
previous observation (1,2), yet it is classified as coinciding; and with two
identical previous observations matching one new row, both previous indices
are returned, each paired with that row. -/
theorem find_common_points_exact_match_cex :
    ((find_common_points [((1 : ℚ), 2)] [((1 : ℚ), 3)] [((0 : ℚ), 0)]).2.1 = [0] ∧
      ¬ ∃ q ∈ [((1 : ℚ), 2)], ([((1 : ℚ), 3)])[0]? = some q) ∧
    ((find_common_points [((1 : ℚ), 2), ((1 : ℚ), 2)] [((1 : ℚ), 2)] [((0 : ℚ), 0)]).1
        = [0, 1] ∧
      (find_common_points [((1 : ℚ), 2), ((1 : ℚ), 2)] [((1 : ℚ), 2)] [((0 : ℚ), 0)]).2.1
        = [0, 0]) := by
  decide

/-- C2 (amended): a pair (i, j) is linked exactly when the new pair's
shared-view row j agrees with previous observation i in the x coordinate or in
the y coordinate (positionally) and j is the first such row; every matching
previous index is used, so several previous observations may link to the same
new row. -/
theorem find_common_points_link_rule (pts1 pts2 pts3 : List (ℚ × ℚ)) (i j : ℕ) :
    (i, j) ∈ ((find_common_points pts1 pts2 pts3).1.zip
        (find_common_points pts1 pts2 pts3).2.1) ↔
      ∃ p, pts1[i]? = some p ∧
        (∃ q, pts2[j]? = some q ∧ (q.1 = p.1 ∨ q.2 = p.2)) ∧
        ∀ (k : ℕ), k < j → ∀ q', pts2[k]? = some q' → ¬(q'.1 = p.1 ∨ q'.2 = p.2) := by
  have hzip : (find_common_points pts1 pts2 pts3).1.zip
      (find_common_points pts1 pts2 pts3).2.1 = cm_pairs pts1 pts2 := by
    show ((cm_pairs pts1 pts2).map Prod.fst).zip ((cm_pairs pts1 pts2).map Prod.snd) = _
    rw [List.zip_map']
    simp
  rw [hzip, mem_cm_pairs]
  constructor
  · rintro ⟨p, hp, hj⟩
    rw [firstMatchIdx_eq_some_iff] at hj
    obtain ⟨⟨q, hq, hmq⟩, hmin⟩ := hj
    refine ⟨p, hp, ⟨q, hq, ?_⟩, ?_⟩
    · simpa [matchRow] using hmq
    · intro k hk q' hq'
      have := hmin k hk q' hq'
      simpa [matchRow] using this
  · rintro ⟨p, hp, ⟨q, hq, hmq⟩, hmin⟩
    refine ⟨p, hp, ?_⟩
    rw [firstMatchIdx_eq_some_iff]
    refine ⟨⟨q, hq, by simpa [matchRow] using hmq⟩, ?_⟩
    intro k hk b hb
    have := hmin k hk b hb
    simpa [matchRow] using this

/-- Witness for C2 (amended): at the concrete inputs of the link rule,
previous observation (1,2) is linked to new row 0 holding (1,3). -/
theorem find_common_points_link_rule_witness :
    ∃ p : ℚ × ℚ, ([((1 : ℚ), (2 : ℚ))])[0]? = some p ∧
      (∃ q, ([((1 : ℚ), (3 : ℚ))])[0]? = some q ∧ (q.1 = p.1 ∨ q.2 = p.2)) ∧
      ∀ (k : ℕ), k < 0 → ∀ q' : ℚ × ℚ, ([((1 : ℚ), (3 : ℚ))])[k]? = some q' →
        ¬(q'.1 = p.1 ∨ q'.2 = p.2) :=
  (find_common_points_link_rule [((1 : ℚ), (2 : ℚ))] [((1 : ℚ), (3 : ℚ))]
    [((0 : ℚ), (0 : ℚ))] 0 0).mp (by decide)

/-- C7: the second view world pose is composed as (R * R0, t0 + R0 * t); with
the identity first pose (R0 = 1, t0 = 0) the composed world pose is exactly
(R, t). -/
theorem compose_pose_identity (rot_matrix : Matrix (Fin 3) (Fin 3) ℝ)
    (tran_matrix : Fin 3 → ℝ) :
    composeSecondPose rot_matrix tran_matrix 1 0 = (rot_matrix, tran_matrix) := by
  unfold composeSecondPose
  rw [mul_one, Matrix.one_mulVec, zero_add]

/-- C8: loading divides exactly the two focal terms and the two
principal-point terms of the intrinsic matrix by the downscale factor, leaving
the other five entries unchanged; and the bundle-adjustment driver step keeps
the stored intrinsics, discarding the refined intrinsics slice of the
corrected vector. -/
theorem intrinsics_downscale_once_ba_discard :
    (∀ (K : Matrix (Fin 3) (Fin 3) ℝ) (factor : ℝ),
      downscale_instrinsics K factor 0 0 = K 0 0 / factor ∧
      downscale_instrinsics K factor 1 1 = K 1 1 / factor ∧
      downscale_instrinsics K factor 0 2 = K 0 2 / factor ∧
      downscale_instrinsics K factor 1 2 = K 1 2 / factor ∧
      downscale_instrinsics K factor 0 1 = K 0 1 ∧
      downscale_instrinsics K factor 1 0 = K 1 0 ∧
      downscale_instrinsics K factor 2 0 = K 2 0 ∧
      downscale_instrinsics K factor 2 1 = K 2 1 ∧
      downscale_instrinsics K factor 2 2 = K 2 2) ∧
    ∀ (s : IterationState) (values_corrected : List ℝ),
      (applyBundleAdjustment s values_corrected).K = s.K := by
  constructor
  · intro K factor
    refine ⟨?_, ?_, ?_, ?_, ?_, ?_, ?_, ?_, ?_⟩ <;>
      simp only [downscale_instrinsics, Matrix.of_apply]
    · rw [if_pos (by decide)]
    · rw [if_pos (by decide)]
    · rw [if_pos (by decide)]
    · rw [if_pos (by decide)]
    · rw [if_neg (by decide)]
    · rw [if_neg (by decide)]
    · rw [if_neg (by decide)]
    · rw [if_neg (by decide)]
    · rw [if_neg (by decide)]
  · intro s values_corrected
    rfl

/-- C1 (amended): at finalization the exporter first scales the accumulated
points by 200 and then applies the centroid-distance outlier filter to the
scaled coordinates; equivalently, the survivors are the points within
(mean distance + 1.5 unscaled units) of the unscaled centroid, scaled
by 200. -/
theorem save_to_ply_scales_before_filtering (point_cloud : List P3) :
    save_to_ply_points point_cloud
      = (filterWithSlack (3/2) point_cloud).map (scalePoint 200) := by
  unfold save_to_ply_points filterWithSlack
  rw [List.filter_map]
  congr 1
  apply List.filter_congr
  intro p hp
  simp only [Function.comp_apply, decide_eq_decide]
  rw [centroid_map_scale, meanDist_map_scale 200 (by norm_num),
    distTo_scale 200 (by norm_num)]
  constructor
  · intro h; linarith
  · intro h; linarith

/-- C6: the centroid-distance outlier filter is idempotent: on a cloud all of
whose points already lie within (mean distance to centroid + 300) of the
cloud's centroid, the filter removes no further points. -/
theorem outlier_filter_idempotent (verts : List P3)
    (h : ∀ p ∈ verts, distTo (centroid verts) p < meanDist verts + 300) :
    filterOutliers verts = verts := by
  unfold filterOutliers
  rw [List.filter_eq_self]
  intro p hp
  exact decide_eq_true (h p hp)

/-- Witness for C6: the singleton cloud at the origin satisfies the
distance bound and is left unchanged by the filter. -/
theorem outlier_filter_idempotent_witness :
    (∀ p ∈ [((0 : ℝ), (0 : ℝ), (0 : ℝ))],
        distTo (centroid [((0 : ℝ), (0 : ℝ), (0 : ℝ))]) p
          < meanDist [((0 : ℝ), (0 : ℝ), (0 : ℝ))] + 300) ∧
      filterOutliers [((0 : ℝ), (0 : ℝ), (0 : ℝ))] = [((0 : ℝ), (0 : ℝ), (0 : ℝ))] := by
  have h : ∀ p ∈ [((0 : ℝ), (0 : ℝ), (0 : ℝ))],
      distTo (centroid [((0 : ℝ), (0 : ℝ), (0 : ℝ))]) p
        < meanDist [((0 : ℝ), (0 : ℝ), (0 : ℝ))] + 300 := by
    intro p hp
    simp only [List.mem_singleton] at hp
    subst hp
    simp [distTo, centroid, meanDist, distList, sum3]
  exact ⟨h, outlier_filter_idempotent _ h⟩

/-- Counterexample for C1: on the cloud [(0,0,0), (0,0,0), (30,0,0)] the
exporter (scale by 200, then filter) keeps two points, while the claimed order
(filter the unscaled cloud, then scale) keeps all three, so the two
procedures disagree. -/
theorem save_to_ply_scale_order_cex :
    save_to_ply_points [((0 : ℝ), 0, 0), ((0 : ℝ), 0, 0), ((30 : ℝ), 0, 0)]
      ≠ spec_filter_then_scale [((0 : ℝ), 0, 0), ((0 : ℝ), 0, 0), ((30 : ℝ), 0, 0)] := by
  have hmapS : ([((0 : ℝ), 0, 0), ((0 : ℝ), 0, 0), ((30 : ℝ), 0, 0)] : List P3).map
      (scalePoint 200) = [((0 : ℝ), 0, 0), ((0 : ℝ), 0, 0), ((6000 : ℝ), 0, 0)] := by
    norm_num [scalePoint]
  have hsumS : sum3 [((0 : ℝ), 0, 0), ((0 : ℝ), 0, 0), ((6000 : ℝ), 0, 0)]
      = ((6000 : ℝ), 0, 0) := by
    norm_num [sum3_cons, sum3_nil]
  have hcentS : centroid [((0 : ℝ), 0, 0), ((0 : ℝ), 0, 0), ((6000 : ℝ), 0, 0)]
      = ((2000 : ℝ), 0, 0) := by
    unfold centroid
    rw [hsumS]
    norm_num
  have hd0 : distTo ((2000 : ℝ), 0, 0) ((0 : ℝ), 0, 0) = 2000 := by
    unfold distTo
    rw [show ((0 : ℝ) - 2000) ^ 2 + ((0 : ℝ) - 0) ^ 2 + ((0 : ℝ) - 0) ^ 2
      = (2000 : ℝ) ^ 2 by norm_num]
    exact Real.sqrt_sq (by norm_num)
  have hd6000 : distTo ((2000 : ℝ), 0, 0) ((6000 : ℝ), 0, 0) = 4000 := by
    unfold distTo
    rw [show ((6000 : ℝ) - 2000) ^ 2 + ((0 : ℝ) - 0) ^ 2 + ((0 : ℝ) - 0) ^ 2
      = (4000 : ℝ) ^ 2 by norm_num]
    exact Real.sqrt_sq (by norm_num)
  have hmeanS : meanDist [((0 : ℝ), 0, 0), ((0 : ℝ), 0, 0), ((6000 : ℝ), 0, 0)]
      = 8000 / 3 := by
    unfold meanDist distList
    rw [hcentS]
    simp only [List.map_cons, List.map_nil, hd0, hd6000]
    norm_num
  have c0 : distTo ((2000 : ℝ), 0, 0) ((0 : ℝ), 0, 0) < 8000 / 3 + 300 := by
    rw [hd0]; norm_num
  have c6000 : ¬ (distTo ((2000 : ℝ), 0, 0) ((6000 : ℝ), 0, 0) < 8000 / 3 + 300) := by
    rw [hd6000]; norm_num
  have hLHS : save_to_ply_points [((0 : ℝ), 0, 0), ((0 : ℝ), 0, 0), ((30 : ℝ), 0, 0)]
      = [((0 : ℝ), 0, 0), ((0 : ℝ), 0, 0)] := by
    simp only [save_to_ply_points, hmapS, hcentS, hmeanS]
    simp only [List.filter_cons, List.filter_nil, decide_eq_true_eq]
    rw [if_pos c0, if_pos c0, if_neg c6000]
  have hsumL : sum3 [((0 : ℝ), 0, 0), ((0 : ℝ), 0, 0), ((30 : ℝ), 0, 0)]
      = ((30 : ℝ), 0, 0) := by
    norm_num [sum3_cons, sum3_nil]
  have hcentL : centroid [((0 : ℝ), 0, 0), ((0 : ℝ), 0, 0), ((30 : ℝ), 0, 0)]
      = ((10 : ℝ), 0, 0) := by
    unfold centroid
    rw [hsumL]
    norm_num
  have hdL0 : distTo ((10 : ℝ), 0, 0) ((0 : ℝ), 0, 0) = 10 := by
    unfold distTo
    rw [show ((0 : ℝ) - 10) ^ 2 + ((0 : ℝ) - 0) ^ 2 + ((0 : ℝ) - 0) ^ 2
      = (10 : ℝ) ^ 2 by norm_num]
    exact Real.sqrt_sq (by norm_num)
  have hdL30 : distTo ((10 : ℝ), 0, 0) ((30 : ℝ), 0, 0) = 20 := by
    unfold distTo
    rw [show ((30 : ℝ) - 10) ^ 2 + ((0 : ℝ) - 0) ^ 2 + ((0 : ℝ) - 0) ^ 2
      = (20 : ℝ) ^ 2 by norm_num]
    exact Real.sqrt_sq (by norm_num)
  have hmeanL : meanDist [((0 : ℝ), 0, 0), ((0 : ℝ), 0, 0), ((30 : ℝ), 0, 0)]
      = 40 / 3 := by
    unfold meanDist distList
    rw [hcentL]
    simp only [List.map_cons, List.map_nil, hdL0, hdL30]
    norm_num
  have cL0 : distTo ((10 : ℝ), 0, 0) ((0 : ℝ), 0, 0) < 40 / 3 + 300 := by
    rw [hdL0]; norm_num
  have cL30 : distTo ((10 : ℝ), 0, 0) ((30 : ℝ), 0, 0) < 40 / 3 + 300 := by
    rw [hdL30]; norm_num
  have hRHS : spec_filter_then_scale [((0 : ℝ), 0, 0), ((0 : ℝ), 0, 0), ((30 : ℝ), 0, 0)]
      = [((0 : ℝ), 0, 0), ((0 : ℝ), 0, 0), ((6000 : ℝ), 0, 0)] := by
    simp only [spec_filter_then_scale, filterOutliers, hcentL, hmeanL]
    simp only [List.filter_cons, List.filter_nil, decide_eq_true_eq]
    rw [if_pos cL0, if_pos cL0, if_pos cL30]
    norm_num [scalePoint]
  rw [hLHS, hRHS]
  intro h
  have := congrArg List.length h
  simp at this

/-- C4 (amended): the Reprojection Evaluator returns the L2 norm of the whole
residual — the square root of the sum of the squared per-point Euclidean
distances — divided by the number of points, not the mean of the per-point
distances. -/
theorem reproj_error_norm_over_count (a b : List (ℝ × ℝ)) :
    reproj_error a b =
      Real.sqrt ((((a.zip b).map
          (fun q => Real.sqrt ((q.1.1 - q.2.1) ^ 2 + (q.1.2 - q.2.2) ^ 2))).map
        (fun d => d ^ 2)).sum) / a.length := by
  unfold reproj_error cv_norm_L2
  rw [List.map_map]
  congr 2
  exact congrArg List.sum
    (List.map_congr_left (fun q _ => (Real.sq_sqrt (by positivity)).symm))

/-- Counterexample for C4: with per-point distances 3 and 4 the evaluator
returns sqrt(9+16)/2 = 5/2, while the mean Euclidean distance is
(3+4)/2 = 7/2. -/
theorem reproj_error_mean_cex :
    reproj_error [((3 : ℝ), 0), ((0 : ℝ), 4)] [((0 : ℝ), 0), ((0 : ℝ), 0)]
      ≠ mean_euclidean_error [((3 : ℝ), 0), ((0 : ℝ), 4)] [((0 : ℝ), 0), ((0 : ℝ), 0)] := by
  have hL : reproj_error [((3 : ℝ), 0), ((0 : ℝ), 4)] [((0 : ℝ), 0), ((0 : ℝ), 0)]
      = 5 / 2 := by
    unfold reproj_error cv_norm_L2
    simp only [List.zip_cons_cons, List.zip_nil_right]
    simp only [List.map_cons, List.map_nil, List.sum_cons, List.sum_nil]
    norm_num
    rw [show (25 : ℝ) = (5 : ℝ) ^ 2 by norm_num, Real.sqrt_sq (by norm_num)]
  have hR : mean_euclidean_error [((3 : ℝ), 0), ((0 : ℝ), 4)] [((0 : ℝ), 0), ((0 : ℝ), 0)]
      = 7 / 2 := by
    unfold mean_euclidean_error
    simp only [List.zip_cons_cons, List.zip_nil_right]
    simp only [List.map_cons, List.map_nil, List.sum_cons, List.sum_nil]
    norm_num
    rw [show (9 : ℝ) = (3 : ℝ) ^ 2 by norm_num, show (16 : ℝ) = (4 : ℝ) ^ 2 by norm_num,
      Real.sqrt_sq (by norm_num : (0 : ℝ) ≤ 3), Real.sqrt_sq (by norm_num : (0 : ℝ) ≤ 4)]
    norm_num
  rw [hL, hR]
  norm_num

end SFM
